import Mathlib

/-!
Shallow embedding of the local data-store service of the invoice-nextjs
repository (src/lib/db.ts, first variant, lines 1-370), together with
theorems settling the frozen claims about it.

The embedded IndexedDB object stores are modelled as association lists
sorted by key (getAll returns records in ascending key order), with an
explicit autoIncrement counter.  JS numbers that the program only ever
adds, multiplies and subtracts are modelled as Int.
-/

namespace InvoiceApp

/-- A bank account entry inside the settings record. -/
structure BankAccount where
  bankName : String
  accountNumber : String
  accountHolder : String
deriving DecidableEq, Repr

/-- The settings record stored under the fixed key "company". -/
structure SettingsRecord where
  key : String
  companyName : String
  email : String
  companyAddress : String
  companyPhone : String
  companyWebsite : String
  bankAccounts : List BankAccount
  currency : String
deriving DecidableEq, Repr

/-- One invoice line item: description, quantity, rate and the (caller
supplied) amount field. -/
structure InvoiceItem where
  description : String
  quantity : Int
  rate : Int
  amount : Int
deriving DecidableEq, Repr

/-- The four invoice statuses. -/
inductive InvoiceStatus where
  | draft
  | sent
  | paid
  | overdue
deriving DecidableEq, Repr

/-- An invoice record as stored in the invoices object store. -/
structure Invoice where
  id : Option Nat
  number : String
  date : String
  dueDate : String
  clientId : Nat
  items : List InvoiceItem
  total : Int
  status : InvoiceStatus
  notes : Option String
  subtotal : Int
  discount : Int
deriving DecidableEq, Repr

/-- A client record as stored in the clients object store. -/
structure Client where
  id : Option Nat
  name : String
  company : String
  email : String
  phone : String
  address : String
deriving DecidableEq, Repr

/-- Records with an optional numeric id field living at keyPath id, as
IndexedDB reads and injects it. -/
class HasId (α : Type) where
  getId : α → Option Nat
  setId : α → Nat → α
  getId_setId : ∀ v k, getId (setId v k) = some k

instance : HasId Client where
  getId c := c.id
  setId c k := { c with id := some k }
  getId_setId := fun _ _ => rfl

instance : HasId Invoice where
  getId v := v.id
  setId v k := { v with id := some k }
  getId_setId := fun _ _ => rfl

/-- Insert a record at key k into a key-sorted association list,
replacing an existing record with the same key. -/
def insertRec {α : Type} (k : Nat) (v : α) : List (Nat × α) → List (Nat × α)
  | [] => [(k, v)]
  | (k', v') :: rest =>
    if k < k' then (k, v) :: (k', v') :: rest
    else if k = k' then (k, v) :: rest
    else (k', v') :: insertRec k v rest

/-- Look a key up in an association list. -/
def lookupRec {α : Type} (k : Nat) (l : List (Nat × α)) : Option α :=
  (l.find? (fun p => p.1 = k)).map (fun p => p.2)

/-- Remove a key from an association list. -/
def removeRec {α : Type} (k : Nat) (l : List (Nat × α)) : List (Nat × α) :=
  l.filter (fun p => p.1 ≠ k)

/-- An IndexedDB object store with keyPath id and autoIncrement: records
sorted by key plus the key generator state. -/
structure Store (α : Type) where
  recs : List (Nat × α)
  nextKey : Nat
deriving DecidableEq, Repr

/-- A freshly created object store; IndexedDB key generators start at 1. -/
def Store.empty {α : Type} : Store α := ⟨[], 1⟩

/-- IndexedDB add: uses the id embedded in the value when present
(failing on an existing key), otherwise draws a fresh key from the
generator and injects it into the stored value. -/
def Store.add {α : Type} [HasId α] (s : Store α) (v : α) :
    Store α × Except String Nat :=
  match HasId.getId v with
  | some k =>
    if s.recs.any (fun p => p.1 = k) then (s, Except.error "ConstraintError")
    else (⟨insertRec k v s.recs, max s.nextKey (k + 1)⟩, Except.ok k)
  | none =>
    (⟨insertRec s.nextKey (HasId.setId v s.nextKey) s.recs, s.nextKey + 1⟩,
      Except.ok s.nextKey)

/-- IndexedDB put: like add but overwriting an existing record at the
same key. -/
def Store.put {α : Type} [HasId α] (s : Store α) (v : α) : Store α × Nat :=
  match HasId.getId v with
  | some k => (⟨insertRec k v s.recs, max s.nextKey (k + 1)⟩, k)
  | none =>
    (⟨insertRec s.nextKey (HasId.setId v s.nextKey) s.recs, s.nextKey + 1⟩,
      s.nextKey)

/-- IndexedDB get by key. -/
def Store.get {α : Type} (s : Store α) (k : Nat) : Option α :=
  lookupRec k s.recs

/-- IndexedDB delete by key (no existence check). -/
def Store.del {α : Type} (s : Store α) (k : Nat) : Store α :=
  ⟨removeRec k s.recs, s.nextKey⟩

/-- IndexedDB getAll: the stored values in ascending key order. -/
def Store.getAll {α : Type} (s : Store α) : List α :=
  s.recs.map (fun p => p.2)

/-- IndexedDB clear: removes all records but keeps the key generator. -/
def Store.clear {α : Type} (s : Store α) : Store α :=
  ⟨[], s.nextKey⟩

/-- Add a list of values one by one, stopping at the first failure and
returning the store state reached so far. -/
def Store.addAll {α : Type} [HasId α] (s : Store α) :
    List α → Store α × Except String Unit
  | [] => (s, Except.ok ())
  | v :: rest =>
    match s.add v with
    | (s', Except.ok _) => s'.addAll rest
    | (s', Except.error e) => (s', Except.error e)

/-- Replace the record under key k in a string-keyed association list,
appending when absent (IndexedDB put on the settings store). -/
def putAssoc (k : String) (v : SettingsRecord) :
    List (String × SettingsRecord) → List (String × SettingsRecord)
  | [] => [(k, v)]
  | (k', v') :: rest =>
    if k = k' then (k, v) :: rest else (k', v') :: putAssoc k v rest

/-- Look a string key up in the settings store. -/
def getAssoc (k : String) (l : List (String × SettingsRecord)) :
    Option SettingsRecord :=
  (l.find? (fun p => p.1 = k)).map (fun p => p.2)

/-- The whole database: the three object stores of the schema. -/
structure DBState where
  clients : Store Client
  invoices : Store Invoice
  settings : List (String × SettingsRecord)
deriving DecidableEq, Repr

/-- The default settings record seeded by the upgrade callback of init. -/
def defaultSettings : SettingsRecord :=
  { key := "company"
    companyName := ""
    email := ""
    companyAddress := ""
    companyPhone := ""
    companyWebsite := ""
    bankAccounts := []
    currency := "Rp" }

/-- The database state right after init has created the three stores and
seeded the default settings record. -/
def initState : DBState :=
  { clients := Store.empty
    invoices := Store.empty
    settings := [("company", defaultSettings)] }

/-- A client record as addClient receives it: every field but the id. -/
structure ClientData where
  name : String
  company : String
  email : String
  phone : String
  address : String
deriving DecidableEq, Repr

/-- The JS object addClient hands to the store: no id property yet. -/
def ClientData.toClient (c : ClientData) : Client :=
  { id := none, name := c.name, company := c.company, email := c.email,
    phone := c.phone, address := c.address }

/-- db.addClient: direct add into the clients store. -/
def addClient (st : DBState) (c : ClientData) : DBState × Except String Nat :=
  match st.clients.add c.toClient with
  | (s, r) => ({ st with clients := s }, r)

/-- JS truthiness of the optional numeric id (the number 0 is falsy). -/
def jsTruthyId : Option Nat → Bool
  | some k => decide (k ≠ 0)
  | none => false

/-- db.updateClient: put when client.id is truthy, else throw. -/
def updateClient (st : DBState) (c : Client) : DBState × Except String Nat :=
  if jsTruthyId c.id then
    match st.clients.put c with
    | (s, k) => ({ st with clients := s }, Except.ok k)
  else (st, Except.error "Client ID is required for update")

/-- db.deleteClient: delete from the clients store only. -/
def deleteClient (st : DBState) (id : Nat) : DBState :=
  { st with clients := st.clients.del id }

/-- db.getClients. -/
def getClients (st : DBState) : List Client :=
  st.clients.getAll

/-- db.getClient. -/
def getClient (st : DBState) (id : Nat) : Option Client :=
  st.clients.get id

/-- The subtotal computation of addInvoice and updateInvoice: reduce of
item.amount over the items with initial value 0. -/
def computeSubtotal (items : List InvoiceItem) : Int :=
  items.foldl (fun sum item => sum + item.amount) 0

/-- The JS expression d or-else 0 on a number: 0 is falsy. -/
def jsOrZero (d : Int) : Int :=
  if d = 0 then 0 else d

/-- db.addInvoice: recompute subtotal and total, store, and return the
stored record together with its id. -/
def addInvoice (st : DBState) (invoice : Invoice) :
    DBState × Except String Invoice :=
  let subtotal := computeSubtotal invoice.items
  let total := subtotal - jsOrZero invoice.discount
  let newInvoice := { invoice with subtotal := subtotal, total := total }
  match st.invoices.add newInvoice with
  | (s, Except.ok k) =>
    ({ st with invoices := s }, Except.ok { newInvoice with id := some k })
  | (_, Except.error e) => (st, Except.error e)

/-- db.updateInvoice: throw when the id is absent, else recompute
subtotal and total and put the record back under the given id. -/
def updateInvoice (st : DBState) (id : Nat) (invoice : Invoice) :
    DBState × Except String Invoice :=
  match st.invoices.get id with
  | none => (st, Except.error "Invoice not found")
  | some _ =>
    let subtotal := computeSubtotal invoice.items
    let total := subtotal - jsOrZero invoice.discount
    let updatedInvoice :=
      { invoice with id := some id, subtotal := subtotal, total := total }
    match st.invoices.put updatedInvoice with
    | (s, _) => ({ st with invoices := s }, Except.ok updatedInvoice)

/-- db.deleteInvoice. -/
def deleteInvoice (st : DBState) (id : Nat) : DBState :=
  { st with invoices := st.invoices.del id }

/-- db.getInvoices. -/
def getInvoices (st : DBState) : List Invoice :=
  st.invoices.getAll

/-- db.getInvoice. -/
def getInvoice (st : DBState) (id : Nat) : Option Invoice :=
  st.invoices.get id

/-- db.getSettings: get the record under key company, throwing when it
is absent. -/
def getSettings (st : DBState) : Except String SettingsRecord :=
  match getAssoc "company" st.settings with
  | none => Except.error "Settings not found"
  | some s => Except.ok s

/-- The input of updateSettings: a full settings record minus the key
field, as its TypeScript signature demands. -/
structure SettingsInput where
  companyName : String
  email : String
  companyAddress : String
  companyPhone : String
  companyWebsite : String
  bankAccounts : List BankAccount
  currency : String
deriving DecidableEq, Repr

/-- The object updateSettings builds: key company spread with the input. -/
def SettingsInput.withKey (s : SettingsInput) : SettingsRecord :=
  { key := "company", companyName := s.companyName, email := s.email,
    companyAddress := s.companyAddress, companyPhone := s.companyPhone,
    companyWebsite := s.companyWebsite, bankAccounts := s.bankAccounts,
    currency := s.currency }

/-- db.updateSettings: build the record with key company, put it, and
return it. -/
def updateSettings (st : DBState) (s : SettingsInput) :
    DBState × SettingsRecord :=
  let u := s.withKey
  ({ st with settings := putAssoc u.key u st.settings }, u)

/-- The backup document: the three collections serialized by backup. -/
structure BackupDoc where
  clients : List Client
  invoices : List Invoice
  settings : SettingsRecord
deriving DecidableEq, Repr

/-- db.backup: getAll of clients and invoices plus getSettings, failing
exactly when getSettings throws. -/
def backup (st : DBState) : Except String BackupDoc :=
  match getSettings st with
  | Except.error e => Except.error e
  | Except.ok s => Except.ok ⟨getClients st, getInvoices st, s⟩

/-- db.restore: clear the three stores, re-add every client and invoice
record from the document verbatim, then put the settings record (the
spread of the parsed settings object over the key company, which the
settings object of a backup document overrides with its own key field).
A failure partway through leaves the partial state reached so far. -/
def restore (st : DBState) (doc : BackupDoc) : DBState × Except String Unit :=
  let st0 : DBState :=
    { clients := st.clients.clear, invoices := st.invoices.clear,
      settings := [] }
  match st0.clients.addAll doc.clients with
  | (cs, Except.error e) => ({ st0 with clients := cs }, Except.error e)
  | (cs, Except.ok _) =>
    match st0.invoices.addAll doc.invoices with
    | (is, Except.error e) =>
      ({ st0 with clients := cs, invoices := is }, Except.error e)
    | (is, Except.ok _) =>
      let u := doc.settings
      ({ clients := cs, invoices := is, settings := putAssoc u.key u [] },
        Except.ok ())

/-- A settings object as the JS runtime sees it: each field possibly
absent, since the TypeScript record type is erased at runtime. -/
structure SettingsPartial where
  companyName : Option String
  email : Option String
  companyAddress : Option String
  companyPhone : Option String
  companyWebsite : Option String
  bankAccounts : Option (List BankAccount)
  currency : Option String
deriving DecidableEq, Repr

/-- A stored settings object at the runtime level: the key plus the
possibly absent fields. -/
structure SettingsObj where
  key : String
  companyName : Option String
  email : Option String
  companyAddress : Option String
  companyPhone : Option String
  companyWebsite : Option String
  bankAccounts : Option (List BankAccount)
  currency : Option String
deriving DecidableEq, Repr

/-- Runtime semantics of the updateSettings body on a possibly partial
input object: the spread of the input over an object holding only the
key, so the result carries exactly the fields present on the input; the
previously stored record is never read. -/
def updateSettingsRuntime (_stored : SettingsObj) (input : SettingsPartial) :
    SettingsObj :=
  { key := "company", companyName := input.companyName, email := input.email,
    companyAddress := input.companyAddress, companyPhone := input.companyPhone,
    companyWebsite := input.companyWebsite, bankAccounts := input.bankAccounts,
    currency := input.currency }

/-- First-of over possibly absent runtime fields. -/
def orField {α : Type} (a b : Option α) : Option α :=
  match a with
  | some x => some x
  | none => b

/-- The merge semantics the specification sentence describes for
updateSettings: fields present on the partial input override, fields
absent from it retain the previously stored values. -/
def mergeSettings (stored : SettingsObj) (input : SettingsPartial) :
    SettingsObj :=
  { key := "company",
    companyName := orField input.companyName stored.companyName,
    email := orField input.email stored.email,
    companyAddress := orField input.companyAddress stored.companyAddress,
    companyPhone := orField input.companyPhone stored.companyPhone,
    companyWebsite := orField input.companyWebsite stored.companyWebsite,
    bankAccounts := orField input.bankAccounts stored.bankAccounts,
    currency := orField input.currency stored.currency }

/-- The subtotal as the specification sentence words it: the sum of
quantity times rate over the items. -/
def specSubtotal (items : List InvoiceItem) : Int :=
  items.foldl (fun sum item => sum + item.quantity * item.rate) 0

/-- The subtotal of the invoice returned by a successful write. -/
def returnedSubtotal (r : DBState × Except String Invoice) : Option Int :=
  match r.2 with
  | Except.ok v => some v.subtotal
  | Except.error _ => none

/-- The total of the invoice returned by a successful write. -/
def returnedTotal (r : DBState × Except String Invoice) : Option Int :=
  match r.2 with
  | Except.ok v => some v.total
  | Except.error _ => none

/-- The amount of the first line item of the invoice returned by a
successful write. -/
def returnedFirstAmount (r : DBState × Except String Invoice) : Option Int :=
  match r.2 with
  | Except.ok v => v.items.head?.map (fun it => it.amount)
  | Except.error _ => none

/-- An invoice used as concrete input by several witnesses. -/
def w4Invoice : Invoice :=
  { id := none, number := "INV-001", date := "2024-01-01",
    dueDate := "2024-01-31", clientId := 1, items := [], total := 0,
    status := InvoiceStatus.draft, notes := none, subtotal := 0,
    discount := 0 }

/-- A client record lacking the id field. -/
def w5Client : Client :=
  { id := none, name := "Jane", company := "Acme Co", email := "j@acme.test",
    phone := "555", address := "Street 1" }

/-- An invoice whose single item carries a stale amount of 7 although
quantity times rate is 1000. -/
def c1Invoice : Invoice :=
  { id := none, number := "INV-002", date := "2024-01-01",
    dueDate := "2024-01-31", clientId := 1,
    items := [{ description := "Design", quantity := 2, rate := 500,
                amount := 7 }],
    total := 0, status := InvoiceStatus.draft, notes := none, subtotal := 0,
    discount := 0 }

/-- The invoice of the spec example, but with the amount field the
runtime would carry when the caller left it at 0. -/
def c2BadInvoice : Invoice :=
  { id := none, number := "INV-003", date := "2024-01-01",
    dueDate := "2024-01-31", clientId := 1,
    items := [{ description := "Design", quantity := 2, rate := 500,
                amount := 0 }],
    total := 0, status := InvoiceStatus.draft, notes := none, subtotal := 0,
    discount := 100 }

/-- A stored runtime settings object with every field present. -/
def c8Stored : SettingsObj :=
  { key := "company", companyName := some "Acme", email := some "a@acme.test",
    companyAddress := some "Street 1", companyPhone := some "555",
    companyWebsite := some "acme.example", bankAccounts := some [],
    currency := some "Rp" }

/-- A partial runtime input supplying only the email field. -/
def c8Input : SettingsPartial :=
  { companyName := none, email := some "new@acme.test", companyAddress := none,
    companyPhone := none, companyWebsite := none, bankAccounts := none,
    currency := none }

/-- The invoice the add of c1Invoice returns and stores. -/
def c1Returned : Invoice :=
  { c1Invoice with id := some 1, subtotal := 7, total := 7 }

/-- A state holding one invoice under id 1, used by update witnesses. -/
def w1State : DBState := (addInvoice initState w4Invoice).1

/-- The spec-example invoice with the amount the example expects
supplied by the caller. -/
def c2GoodInvoice : Invoice :=
  { id := none, number := "INV-004", date := "2024-01-01",
    dueDate := "2024-01-31", clientId := 1,
    items := [{ description := "Design", quantity := 2, rate := 500,
                amount := 1000 }],
    total := 0, status := InvoiceStatus.draft, notes := none, subtotal := 0,
    discount := 100 }

/-- The invoice the add of c2GoodInvoice returns and stores. -/
def c2Returned : Invoice :=
  { c2GoodInvoice with id := some 1, subtotal := 1000, total := 900 }

/-- An invoice with no items and discount 100: its stored total is the
negative -100. -/
def c9Invoice : Invoice :=
  { id := none, number := "INV-005", date := "2024-01-01",
    dueDate := "2024-01-31", clientId := 1, items := [], total := 0,
    status := InvoiceStatus.draft, notes := none, subtotal := 0,
    discount := 100 }

/-- The invoice the add of c9Invoice returns and stores. -/
def c9Returned : Invoice :=
  { c9Invoice with id := some 1, subtotal := 0, total := -100 }

/-- Keys strictly ascending. -/
def RecsSorted {α : Type} (l : List (Nat × α)) : Prop :=
  l.Pairwise (fun a b => a.1 < b.1)

/-- Every stored value carries its own key in its id field. -/
def IdsEmbedded {α : Type} [HasId α] (l : List (Nat × α)) : Prop :=
  ∀ p ∈ l, HasId.getId p.2 = some p.1

/-- Well-formedness of one numeric-key object store. -/
def StoreWF {α : Type} [HasId α] (s : Store α) : Prop :=
  RecsSorted s.recs ∧ IdsEmbedded s.recs

/-- Well-formedness of the settings store: each record sits under its
own key field. -/
def SettingsWF (l : List (String × SettingsRecord)) : Prop :=
  ∀ p ∈ l, p.2.key = p.1

/-- Well-formedness of the whole database state. -/
def DBWF (st : DBState) : Prop :=
  StoreWF st.clients ∧ StoreWF st.invoices ∧ SettingsWF st.settings

/-- The body of addInvoice applied to the already recomputed invoice;
definitionally equal to addInvoice. -/
def addShape (st : DBState) (w : Invoice) : DBState × Except String Invoice :=
  match st.invoices.add w with
  | (s, Except.ok k) =>
    ({ st with invoices := s }, Except.ok { w with id := some k })
  | (_, Except.error e) => (st, Except.error e)

/-- The body of restore after inlining the cleared intermediate state;
definitionally equal to restore. -/
def restoreShape (stc : Store Client) (sti : Store Invoice) (doc : BackupDoc) :
    DBState × Except String Unit :=
  match stc.addAll doc.clients with
  | (cs, Except.error e) => (⟨cs, sti, []⟩, Except.error e)
  | (cs, Except.ok _) =>
    match sti.addAll doc.invoices with
    | (is2, Except.error e) => (⟨cs, is2, []⟩, Except.error e)
    | (is2, Except.ok _) =>
      (⟨cs, is2, putAssoc doc.settings.key doc.settings []⟩, Except.ok ())

/-- States reachable from the freshly initialized database through the
service operations, including the states failed calls leave behind. -/
inductive Reach : DBState → Prop where
  | init : Reach initState
  | addClientStep (st : DBState) (c : ClientData) :
      Reach st → Reach (addClient st c).1
  | updateClientStep (st : DBState) (c : Client) :
      Reach st → Reach (updateClient st c).1
  | deleteClientStep (st : DBState) (id : Nat) :
      Reach st → Reach (deleteClient st id)
  | addInvoiceStep (st : DBState) (inv : Invoice) :
      Reach st → Reach (addInvoice st inv).1
  | updateInvoiceStep (st : DBState) (id : Nat) (inv : Invoice) :
      Reach st → Reach (updateInvoice st id inv).1
  | deleteInvoiceStep (st : DBState) (id : Nat) :
      Reach st → Reach (deleteInvoice st id)
  | updateSettingsStep (st : DBState) (s : SettingsInput) :
      Reach st → Reach (updateSettings st s).1
  | restoreStep (st : DBState) (doc : BackupDoc) :
      Reach st → Reach (restore st doc).1

/-- Every stored key is below the key generator. -/
def KeysBelow {α : Type} (s : Store α) : Prop :=
  ∀ p ∈ s.recs, p.1 < s.nextKey

/-- An invoice violating both stored-total invariants: subtotal 999
against an amount sum of 5, total 7 against 999 minus 0. -/
def c10Bad : Invoice :=
  { id := some 1, number := "INV-009", date := "2024-01-01",
    dueDate := "2024-01-31", clientId := 1,
    items := [{ description := "Design", quantity := 2, rate := 500,
                amount := 5 }],
    total := 7, status := InvoiceStatus.draft, notes := none, subtotal := 999,
    discount := 0 }

/-- A backup document holding the violating invoice. -/
def c10Doc : BackupDoc := ⟨[], [c10Bad], defaultSettings⟩

/-- The state restoring c10Doc over the fresh database produces. -/
def c10State : DBState :=
  ⟨⟨[], 1⟩, ⟨[(1, c10Bad)], 2⟩, [("company", defaultSettings)]⟩

/-!  Basic lemmas about the store primitives.  -/

theorem jsOrZero_eq (d : Int) : jsOrZero d = d := by
  unfold jsOrZero
  split <;> omega

theorem lookupRec_insertRec_self {α : Type} (k : Nat) (v : α)
    (l : List (Nat × α)) :
    lookupRec k (insertRec k v l) = some v := by
  induction l with
  | nil => simp [insertRec, lookupRec, List.find?]
  | cons p rest ih =>
    obtain ⟨k', v'⟩ := p
    by_cases h1 : k < k'
    · simp [insertRec, h1, lookupRec, List.find?]
    · by_cases h2 : k = k'
      · simp [insertRec, h1, h2, lookupRec, List.find?]
      · have hne : ¬ (k' = k) := fun h => h2 h.symm
        simpa [insertRec, h1, h2, lookupRec, List.find?, hne] using ih

theorem getAssoc_putAssoc_self (k : String) (v : SettingsRecord)
    (l : List (String × SettingsRecord)) :
    getAssoc k (putAssoc k v l) = some v := by
  induction l with
  | nil => simp [putAssoc, getAssoc, List.find?]
  | cons p rest ih =>
    obtain ⟨k', v'⟩ := p
    by_cases h : k = k'
    · simp [putAssoc, h, getAssoc, List.find?]
    · have hne : ¬ (k' = k) := fun hh => h hh.symm
      simpa [putAssoc, h, getAssoc, List.find?, hne] using ih

/-!  Concrete records used by witnesses and counterexamples.  -/

/-!  Claim theorems.  -/

theorem updateInvoice_none (st : DBState) (id : Nat) (inv : Invoice)
    (h : st.invoices.get id = none) :
    updateInvoice st id inv = (st, Except.error "Invoice not found") := by
  unfold updateInvoice
  rw [h]

/-- C4: updateInvoice on an id with no stored invoice record fails with
the Invoice-not-found error and returns the database state unchanged,
writing nothing. -/
theorem updateInvoice_notFound (st : DBState) (id : Nat) (inv : Invoice)
    (h : st.invoices.get id = none) :
    updateInvoice st id inv = (st, Except.error "Invoice not found") :=
  updateInvoice_none st id inv h

theorem updateInvoice_notFound_witness :
    initState.invoices.get 1 = none ∧
    updateInvoice initState 1 w4Invoice =
      (initState, Except.error "Invoice not found") :=
  ⟨rfl, updateInvoice_notFound initState 1 w4Invoice rfl⟩

/-- C5: updateClient on a record lacking the id field fails with the
id-required error and returns the database state unchanged, writing
nothing. -/
theorem updateClient_missing_id (st : DBState) (c : Client)
    (h : c.id = none) :
    updateClient st c =
      (st, Except.error "Client ID is required for update") := by
  unfold updateClient
  rw [h]
  simp [jsTruthyId]

theorem updateClient_missing_id_witness :
    w5Client.id = none ∧
    updateClient initState w5Client =
      (initState, Except.error "Client ID is required for update") :=
  ⟨rfl, updateClient_missing_id initState w5Client rfl⟩

/-- C6: deleteClient touches only the clients store; the invoices store,
records and key generator alike, is returned unchanged, so invoices
referencing the deleted client are neither deleted nor altered. -/
theorem deleteClient_preserves_invoices (st : DBState) (id : Nat) :
    (deleteClient st id).invoices = st.invoices := rfl

/-- C7: on the freshly initialized database state getSettings succeeds
with the seeded default settings record, whose company name is empty and
whose currency is the default; it does not fail with NotFound. -/
theorem getSettings_after_init_default :
    getSettings initState = Except.ok defaultSettings ∧
    defaultSettings.companyName = "" ∧ defaultSettings.currency = "Rp" := by
  refine ⟨?_, rfl, rfl⟩
  rfl

/-- C1 counterexample: adding an invoice whose single item carries the
stale amount 7 with quantity 2 and rate 500 stores subtotal 7, the sum
of the caller-supplied amounts, not the claimed sum of quantity times
rate, which is 1000. -/
theorem addInvoice_spec_subtotal_cex :
    returnedSubtotal (addInvoice initState c1Invoice) = some 7 ∧
    specSubtotal c1Invoice.items = 1000 ∧ (7 : Int) ≠ 1000 := by
  decide

/-- C2 counterexample: adding the spec-example invoice with the caller
leaving amount at 0 stores amount 0, subtotal 0 and total -100 instead
of the claimed re-derived 1000, 1000 and 900. -/
theorem addInvoice_amount_not_rederived_cex :
    returnedFirstAmount (addInvoice initState c2BadInvoice) = some 0 ∧
    returnedSubtotal (addInvoice initState c2BadInvoice) = some 0 ∧
    returnedTotal (addInvoice initState c2BadInvoice) = some (-100) ∧
    (0 : Int) ≠ 1000 ∧ (-100 : Int) ≠ 900 := by
  decide

/-- C8 counterexample: on a partial runtime input that omits the company
name, updateSettings drops the previously stored company name instead of
retaining it, so its result differs from the merge the claim describes. -/
theorem updateSettings_not_merge_cex :
    (updateSettingsRuntime c8Stored c8Input).companyName = none ∧
    (mergeSettings c8Stored c8Input).companyName = some "Acme" ∧
    updateSettingsRuntime c8Stored c8Input ≠ mergeSettings c8Stored c8Input := by
  refine ⟨rfl, rfl, ?_⟩
  intro h
  have := congrArg SettingsObj.companyName h
  simp [updateSettingsRuntime, mergeSettings, c8Stored, c8Input, orField] at this

/-- C8 (amended): updateSettings replaces the stored settings record
wholesale with the record built from the key company and exactly the
supplied fields, persists it and returns it; it never reads the
previously stored record, so the result is the same whatever the prior
state, and fields absent from a partial runtime input end up absent
rather than retaining previously stored values. -/
theorem updateSettings_full_replace (st st' : DBState) (s : SettingsInput)
    (stored stored' : SettingsObj) (input : SettingsPartial) :
    (updateSettings st s).2 = s.withKey ∧
    getSettings (updateSettings st s).1 = Except.ok s.withKey ∧
    (updateSettings st s).2 = (updateSettings st' s).2 ∧
    updateSettingsRuntime stored input = updateSettingsRuntime stored' input := by
  refine ⟨rfl, ?_, rfl, rfl⟩
  show getSettings
      { st with settings := putAssoc s.withKey.key s.withKey st.settings } =
    Except.ok s.withKey
  unfold getSettings
  rw [show s.withKey.key = "company" from rfl,
    getAssoc_putAssoc_self "company" s.withKey st.settings]

/-!  Unfolding lemmas for the id lens instances.  -/

theorem invoice_getId (v : Invoice) : HasId.getId v = v.id := rfl

theorem invoice_setId (v : Invoice) (k : Nat) :
    HasId.setId v k = { v with id := some k } := rfl

theorem client_getId (c : Client) : HasId.getId c = c.id := rfl

theorem client_setId (c : Client) (k : Nat) :
    HasId.setId c k = { c with id := some k } := rfl

/-!  What a successful invoice write produces.  -/

theorem addInvoice_ok (st : DBState) (inv : Invoice) (v : Invoice)
    (h : (addInvoice st inv).2 = Except.ok v) :
    v.items = inv.items ∧ v.subtotal = computeSubtotal inv.items ∧
    v.total = computeSubtotal inv.items - inv.discount ∧
    ∃ k, v.id = some k ∧ (addInvoice st inv).1.invoices.get k = some v := by
  cases hid : inv.id with
  | none =>
    simp only [addInvoice, Store.add, invoice_getId, invoice_setId, hid] at h ⊢
    simp only [Except.ok.injEq] at h
    subst h
    refine ⟨rfl, rfl, by rw [jsOrZero_eq], st.invoices.nextKey, rfl, ?_⟩
    simpa [Store.get] using
      lookupRec_insertRec_self st.invoices.nextKey _ st.invoices.recs
  | some k =>
    cases hdup : st.invoices.recs.any (fun p => p.1 = k) with
    | true =>
      simp only [addInvoice, Store.add, invoice_getId, hid, hdup,
        if_true] at h
      exact Except.noConfusion h
    | false =>
      simp only [addInvoice, Store.add, invoice_getId, hid, hdup,
        if_false, Bool.false_eq_true] at h ⊢
      simp only [Except.ok.injEq] at h
      subst h
      refine ⟨rfl, rfl, by rw [jsOrZero_eq], k, rfl, ?_⟩
      simpa [Store.get] using lookupRec_insertRec_self k _ st.invoices.recs

theorem updateInvoice_ok (st : DBState) (id : Nat) (inv : Invoice)
    (v : Invoice) (h : (updateInvoice st id inv).2 = Except.ok v) :
    v.items = inv.items ∧ v.subtotal = computeSubtotal inv.items ∧
    v.total = computeSubtotal inv.items - inv.discount ∧
    v.id = some id ∧ (updateInvoice st id inv).1.invoices.get id = some v := by
  cases hget : st.invoices.get id with
  | none => simp [updateInvoice, hget] at h
  | some w =>
    simp only [updateInvoice, Store.put, invoice_getId, hget] at h ⊢
    simp only [Except.ok.injEq] at h
    subst h
    refine ⟨rfl, rfl, by rw [jsOrZero_eq], rfl, ?_⟩
    simpa [Store.get] using lookupRec_insertRec_self id _ st.invoices.recs

/-- C1 (amended): after a successful addInvoice or updateInvoice the
stored invoice satisfies subtotal equal to the sum of the caller-supplied
item amounts, and total equal to subtotal minus discount, regardless of
what subtotal and total values the caller supplied; subtotal equals the
sum of quantity times rate only insofar as the supplied amounts do. -/
theorem invoice_totals_recomputed (st₁ st₂ : DBState) (inv₁ inv₂ : Invoice)
    (id₂ : Nat) (v₁ v₂ : Invoice)
    (h₁ : (addInvoice st₁ inv₁).2 = Except.ok v₁)
    (h₂ : (updateInvoice st₂ id₂ inv₂).2 = Except.ok v₂) :
    (v₁.subtotal = computeSubtotal inv₁.items ∧
     v₁.total = v₁.subtotal - inv₁.discount ∧
     ∃ k, v₁.id = some k ∧ (addInvoice st₁ inv₁).1.invoices.get k = some v₁) ∧
    (v₂.subtotal = computeSubtotal inv₂.items ∧
     v₂.total = v₂.subtotal - inv₂.discount ∧
     (updateInvoice st₂ id₂ inv₂).1.invoices.get id₂ = some v₂) := by
  obtain ⟨-, hs, ht, hk⟩ := addInvoice_ok st₁ inv₁ v₁ h₁
  obtain ⟨-, hs2, ht2, -, hg⟩ := updateInvoice_ok st₂ id₂ inv₂ v₂ h₂
  exact ⟨⟨hs, by rw [ht, hs], hk⟩, hs2, by rw [ht2, hs2], hg⟩

theorem invoice_totals_recomputed_witness :
    ((addInvoice initState c1Invoice).2 = Except.ok c1Returned ∧
     (updateInvoice w1State 1 c1Invoice).2 = Except.ok c1Returned) ∧
    ((c1Returned.subtotal = computeSubtotal c1Invoice.items ∧
      c1Returned.total = c1Returned.subtotal - c1Invoice.discount ∧
      ∃ k, c1Returned.id = some k ∧
        (addInvoice initState c1Invoice).1.invoices.get k = some c1Returned) ∧
     (c1Returned.subtotal = computeSubtotal c1Invoice.items ∧
      c1Returned.total = c1Returned.subtotal - c1Invoice.discount ∧
      (updateInvoice w1State 1 c1Invoice).1.invoices.get 1 = some c1Returned)) :=
  ⟨⟨rfl, rfl⟩,
    invoice_totals_recomputed initState w1State c1Invoice c1Invoice 1
      c1Returned c1Returned rfl rfl⟩

/-- C2 (amended): addInvoice and updateInvoice store the line items
exactly as supplied, re-deriving no amount from quantity and rate; the
spec-example figures amount 1000, subtotal 1000, total 900 arise exactly
when the caller itself supplies amount 1000. -/
theorem invoice_items_stored_verbatim (st₁ st₂ : DBState) (inv₁ inv₂ : Invoice)
    (id₂ : Nat) (v₁ v₂ : Invoice)
    (h₁ : (addInvoice st₁ inv₁).2 = Except.ok v₁)
    (h₂ : (updateInvoice st₂ id₂ inv₂).2 = Except.ok v₂) :
    v₁.items = inv₁.items ∧ v₂.items = inv₂.items :=
  ⟨(addInvoice_ok st₁ inv₁ v₁ h₁).1, (updateInvoice_ok st₂ id₂ inv₂ v₂ h₂).1⟩

theorem invoice_items_stored_verbatim_witness :
    ((addInvoice initState c2GoodInvoice).2 = Except.ok c2Returned ∧
     (updateInvoice w1State 1 c2GoodInvoice).2 = Except.ok c2Returned) ∧
    (c2Returned.items = c2GoodInvoice.items ∧
     c2Returned.items = c2GoodInvoice.items) ∧
    (returnedFirstAmount (addInvoice initState c2GoodInvoice) = some 1000 ∧
     returnedSubtotal (addInvoice initState c2GoodInvoice) = some 1000 ∧
     returnedTotal (addInvoice initState c2GoodInvoice) = some 900) :=
  ⟨⟨rfl, rfl⟩,
    invoice_items_stored_verbatim initState w1State c2GoodInvoice c2GoodInvoice
      1 c2Returned c2Returned rfl rfl,
    by decide⟩

/-- C9: total recomputation handles the edge cases: an empty items list
yields subtotal 0, and the discount is not clamped, the stored total
being exactly subtotal minus discount even when that is negative. -/
theorem invoice_totals_edge_cases (st₁ st₂ : DBState) (inv₁ inv₂ : Invoice)
    (id₂ : Nat) (v₁ v₂ : Invoice)
    (h₁ : (addInvoice st₁ inv₁).2 = Except.ok v₁)
    (h₂ : (updateInvoice st₂ id₂ inv₂).2 = Except.ok v₂) :
    (inv₁.items = [] → v₁.subtotal = 0) ∧
    v₁.total = v₁.subtotal - inv₁.discount ∧
    (inv₂.items = [] → v₂.subtotal = 0) ∧
    v₂.total = v₂.subtotal - inv₂.discount := by
  obtain ⟨-, hs, ht, -⟩ := addInvoice_ok st₁ inv₁ v₁ h₁
  obtain ⟨-, hs2, ht2, -, -⟩ := updateInvoice_ok st₂ id₂ inv₂ v₂ h₂
  refine ⟨fun he => ?_, by rw [ht, hs], fun he => ?_, by rw [ht2, hs2]⟩
  · rw [hs, he]; rfl
  · rw [hs2, he]; rfl

theorem invoice_totals_edge_cases_witness :
    ((addInvoice initState c9Invoice).2 = Except.ok c9Returned ∧
     (updateInvoice w1State 1 c9Invoice).2 = Except.ok c9Returned) ∧
    ((c9Invoice.items = [] → c9Returned.subtotal = 0) ∧
     c9Returned.total = c9Returned.subtotal - c9Invoice.discount ∧
     (c9Invoice.items = [] → c9Returned.subtotal = 0) ∧
     c9Returned.total = c9Returned.subtotal - c9Invoice.discount) ∧
    (returnedSubtotal (addInvoice initState c9Invoice) = some 0 ∧
     returnedTotal (addInvoice initState c9Invoice) = some (-100)) :=
  ⟨⟨rfl, rfl⟩,
    invoice_totals_edge_cases initState w1State c9Invoice c9Invoice 1
      c9Returned c9Returned rfl rfl,
    by decide⟩

/-!  Store invariants: keys strictly ascending (the getAll order) and
every stored value carrying its own key in its id field, as the keyPath
injection of the embedded store guarantees.  -/

theorem mem_insertRec {α : Type} (k : Nat) (v : α) (l : List (Nat × α))
    (p : Nat × α) (hp : p ∈ insertRec k v l) : p = (k, v) ∨ p ∈ l := by
  induction l with
  | nil =>
    simp only [insertRec, List.mem_singleton] at hp
    exact Or.inl hp
  | cons q rest ih =>
    obtain ⟨k', v'⟩ := q
    simp only [insertRec] at hp
    by_cases h1 : k < k'
    · rw [if_pos h1] at hp
      rcases List.mem_cons.mp hp with hp | hp
      · exact Or.inl hp
      · exact Or.inr hp
    · rw [if_neg h1] at hp
      by_cases h2 : k = k'
      · rw [if_pos h2] at hp
        rcases List.mem_cons.mp hp with hp | hp
        · exact Or.inl hp
        · exact Or.inr (List.mem_cons_of_mem _ hp)
      · rw [if_neg h2] at hp
        rcases List.mem_cons.mp hp with hp | hp
        · exact Or.inr (by rw [hp]; exact List.mem_cons_self _ _)
        · rcases ih hp with hh | hh
          · exact Or.inl hh
          · exact Or.inr (List.mem_cons_of_mem _ hh)

theorem insertRec_sorted {α : Type} (k : Nat) (v : α) (l : List (Nat × α))
    (h : RecsSorted l) : RecsSorted (insertRec k v l) := by
  induction l with
  | nil => simp [insertRec, RecsSorted]
  | cons q rest ih =>
    obtain ⟨k', v'⟩ := q
    rw [RecsSorted, List.pairwise_cons] at h
    obtain ⟨hall, hrest⟩ := h
    rw [RecsSorted]
    simp only [insertRec]
    by_cases h1 : k < k'
    · rw [if_pos h1, List.pairwise_cons]
      refine ⟨?_, List.pairwise_cons.mpr ⟨hall, hrest⟩⟩
      intro p hp
      rcases List.mem_cons.mp hp with hp | hp
      · rw [hp]
        exact h1
      · exact lt_trans h1 (hall p hp)
    · rw [if_neg h1]
      by_cases h2 : k = k'
      · rw [if_pos h2, List.pairwise_cons]
        refine ⟨fun p hp => ?_, hrest⟩
        have hk := hall p hp
        show k < p.1
        omega
      · rw [if_neg h2, List.pairwise_cons]
        refine ⟨fun p hp => ?_, ih hrest⟩
        rcases mem_insertRec k v rest p hp with hh | hh
        · rw [hh]
          show k' < k
          omega
        · exact hall p hh

theorem insertRec_embedded {α : Type} [HasId α] (k : Nat) (v : α)
    (l : List (Nat × α)) (hv : HasId.getId v = some k) (h : IdsEmbedded l) :
    IdsEmbedded (insertRec k v l) := by
  intro p hp
  rcases mem_insertRec k v l p hp with h1 | h1
  · rw [h1]
    exact hv
  · exact h p h1

theorem insertRec_append {α : Type} (k : Nat) (v : α) (l : List (Nat × α))
    (h : ∀ p ∈ l, p.1 < k) : insertRec k v l = l ++ [(k, v)] := by
  induction l with
  | nil => rfl
  | cons q rest ih =>
    obtain ⟨k', v'⟩ := q
    have hk : k' < k := h (k', v') (List.mem_cons_self _ _)
    have h1 : ¬ k < k' := by omega
    have h2 : ¬ k = k' := by omega
    simp only [insertRec, h1, h2, if_false, List.cons_append, List.cons.injEq,
      true_and]
    exact ih (fun p hp => h p (List.mem_cons_of_mem _ hp))

theorem insertRec_perm {α : Type} (k : Nat) (v : α) (l : List (Nat × α))
    (h : ∀ p ∈ l, p.1 ≠ k) : List.Perm (insertRec k v l) ((k, v) :: l) := by
  induction l with
  | nil => exact List.Perm.refl _
  | cons q rest ih =>
    obtain ⟨k', v'⟩ := q
    by_cases h1 : k < k'
    · simp only [insertRec, h1, if_true]
      exact List.Perm.refl _
    · have h2 : ¬ k = k' :=
        fun hh => h (k', v') (List.mem_cons_self _ _) (by simp [hh])
      simp only [insertRec, h1, h2, if_false]
      have hrest : ∀ p ∈ rest, p.1 ≠ k :=
        fun p hp => h p (List.mem_cons_of_mem _ hp)
      exact ((ih hrest).cons (k', v')).trans (List.Perm.swap _ _ _)

/-!  Well-formedness is preserved by every store primitive.  -/

theorem add_recs_cases {α : Type} [HasId α] (s : Store α) (v : α) :
    (s.add v).1.recs = s.recs ∨
    ∃ k w, HasId.getId w = some k ∧ (s.add v).1.recs = insertRec k w s.recs := by
  unfold Store.add
  split
  case h_1 k heq =>
    split
    · exact Or.inl rfl
    · exact Or.inr ⟨k, v, heq, rfl⟩
  case h_2 heq =>
    exact Or.inr ⟨s.nextKey, _, HasId.getId_setId v s.nextKey, rfl⟩

theorem put_recs_cases {α : Type} [HasId α] (s : Store α) (v : α) :
    ∃ k w, HasId.getId w = some k ∧ (s.put v).1.recs = insertRec k w s.recs := by
  unfold Store.put
  split
  case h_1 k heq => exact ⟨k, v, heq, rfl⟩
  case h_2 heq => exact ⟨s.nextKey, _, HasId.getId_setId v s.nextKey, rfl⟩

theorem StoreWF_add {α : Type} [HasId α] {s : Store α} (h : StoreWF s)
    (v : α) : StoreWF (s.add v).1 := by
  rcases add_recs_cases s v with h1 | ⟨k, w, hw, h1⟩
  · exact ⟨by rw [RecsSorted, h1]; exact h.1, by rw [IdsEmbedded, h1]; exact h.2⟩
  · refine ⟨?_, ?_⟩
    · rw [RecsSorted, h1]
      exact insertRec_sorted k w s.recs h.1
    · rw [IdsEmbedded, h1]
      exact insertRec_embedded k w s.recs hw h.2

theorem StoreWF_put {α : Type} [HasId α] {s : Store α} (h : StoreWF s)
    (v : α) : StoreWF (s.put v).1 := by
  obtain ⟨k, w, hw, h1⟩ := put_recs_cases s v
  refine ⟨?_, ?_⟩
  · rw [RecsSorted, h1]
    exact insertRec_sorted k w s.recs h.1
  · rw [IdsEmbedded, h1]
    exact insertRec_embedded k w s.recs hw h.2

theorem StoreWF_del {α : Type} [HasId α] {s : Store α} (h : StoreWF s)
    (k : Nat) : StoreWF (s.del k) := by
  refine ⟨?_, ?_⟩
  · exact List.Pairwise.sublist (List.filter_sublist _) h.1
  · intro p hp
    exact h.2 p (List.mem_of_mem_filter hp)

theorem StoreWF_clear {α : Type} [HasId α] (s : Store α) :
    StoreWF s.clear :=
  ⟨List.Pairwise.nil, fun p hp => absurd hp (List.not_mem_nil p)⟩

theorem StoreWF_addAll {α : Type} [HasId α] {s : Store α} (h : StoreWF s)
    (l : List α) : StoreWF (s.addAll l).1 := by
  induction l generalizing s with
  | nil => exact h
  | cons v rest ih =>
    unfold Store.addAll
    cases hadd : s.add v with
    | mk s' r =>
      have hs' : StoreWF s' := by
        have := StoreWF_add h v
        rw [hadd] at this
        exact this
      cases r with
      | ok u => exact ih hs'
      | error e => exact hs'

theorem SettingsWF_putAssoc {l : List (String × SettingsRecord)}
    (h : SettingsWF l) (v : SettingsRecord) :
    SettingsWF (putAssoc v.key v l) := by
  induction l with
  | nil =>
    intro p hp
    simp only [putAssoc, List.mem_singleton] at hp
    rw [hp]
  | cons q rest ih =>
    obtain ⟨k', v'⟩ := q
    have hrest : SettingsWF rest := fun q hq => h q (List.mem_cons_of_mem _ hq)
    intro p hp
    simp only [putAssoc] at hp
    by_cases h1 : v.key = k'
    · rw [if_pos h1] at hp
      rcases List.mem_cons.mp hp with hp | hp
      · rw [hp]
      · exact h p (List.mem_cons_of_mem _ hp)
    · rw [if_neg h1] at hp
      rcases List.mem_cons.mp hp with hp | hp
      · rw [hp]
        exact h (k', v') (List.mem_cons_self _ _)
      · exact ih hrest p hp

/-!  Definitional reshaping of the state-passing operations, letting
proofs reason by cases on the underlying store results.  -/

theorem addInvoice_eq_shape (st : DBState) (inv : Invoice) :
    addInvoice st inv = addShape st
      { inv with subtotal := computeSubtotal inv.items,
                 total := computeSubtotal inv.items - jsOrZero inv.discount } :=
  rfl

theorem restore_eq_shape (st : DBState) (doc : BackupDoc) :
    restore st doc = restoreShape st.clients.clear st.invoices.clear doc :=
  rfl

/-- Computation of updateInvoice when the id is present. -/
theorem updateInvoice_found (st : DBState) (id : Nat) (inv : Invoice)
    (w : Invoice) (hget : st.invoices.get id = some w) :
    updateInvoice st id inv =
      ({ st with invoices := (st.invoices.put
          { inv with
            id := some id
            subtotal := computeSubtotal inv.items
            total := computeSubtotal inv.items - jsOrZero inv.discount }).1 },
        Except.ok
          { inv with
            id := some id
            subtotal := computeSubtotal inv.items
            total := computeSubtotal inv.items - jsOrZero inv.discount }) := by
  unfold updateInvoice
  rw [hget]

/-!  Well-formedness of every reachable database state.  -/

theorem StoreWF_empty {α : Type} [HasId α] : StoreWF (Store.empty : Store α) :=
  ⟨List.Pairwise.nil, fun p hp => absurd hp (List.not_mem_nil p)⟩

theorem SettingsWF_nil : SettingsWF [] :=
  fun p hp => absurd hp (List.not_mem_nil p)

theorem DBWF_init : DBWF initState :=
  ⟨StoreWF_empty, StoreWF_empty, fun p hp => by
    have hp' : p ∈ [("company", defaultSettings)] := hp
    rw [List.mem_singleton] at hp'
    rw [hp']
    rfl⟩

theorem DBWF_addClient {st : DBState} (h : DBWF st) (c : ClientData) :
    DBWF (addClient st c).1 := by
  cases hadd : st.clients.add c.toClient with
  | mk s r =>
    have hs : StoreWF s := by
      have hwf := StoreWF_add h.1 c.toClient
      rw [hadd] at hwf
      exact hwf
    have he : addClient st c = ({ st with clients := s }, r) := by
      unfold addClient
      rw [hadd]
    rw [he]
    exact ⟨hs, h.2.1, h.2.2⟩

theorem DBWF_updateClient {st : DBState} (h : DBWF st) (c : Client) :
    DBWF (updateClient st c).1 := by
  unfold updateClient
  by_cases ht : jsTruthyId c.id = true
  · rw [if_pos ht]
    cases hput : st.clients.put c with
    | mk s k =>
      have hs : StoreWF s := by
        have hwf := StoreWF_put h.1 c
        rw [hput] at hwf
        exact hwf
      exact ⟨hs, h.2.1, h.2.2⟩
  · rw [if_neg ht]
    exact h

theorem DBWF_addShape {st : DBState} (h : DBWF st) (w : Invoice) :
    DBWF (addShape st w).1 := by
  unfold addShape
  cases hadd : st.invoices.add w with
  | mk s r =>
    have hs : StoreWF s := by
      have hwf := StoreWF_add h.2.1 w
      rw [hadd] at hwf
      exact hwf
    cases r with
    | ok k => exact ⟨h.1, hs, h.2.2⟩
    | error e => exact h

theorem DBWF_updateSettings {st : DBState} (h : DBWF st) (s : SettingsInput) :
    DBWF (updateSettings st s).1 :=
  ⟨h.1, h.2.1, SettingsWF_putAssoc h.2.2 s.withKey⟩

theorem DBWF_restoreShape (stc : Store Client) (sti : Store Invoice)
    (hc : StoreWF stc) (hi : StoreWF sti) (doc : BackupDoc) :
    DBWF (restoreShape stc sti doc).1 := by
  unfold restoreShape
  cases hca : stc.addAll doc.clients with
  | mk cs rc =>
    have hcs : StoreWF cs := by
      have hwf := StoreWF_addAll hc doc.clients
      rw [hca] at hwf
      exact hwf
    cases rc with
    | error e => exact ⟨hcs, hi, SettingsWF_nil⟩
    | ok u =>
      cases hia : sti.addAll doc.invoices with
      | mk is2 ri =>
        have his : StoreWF is2 := by
          have hwf := StoreWF_addAll hi doc.invoices
          rw [hia] at hwf
          exact hwf
        cases ri with
        | error e => exact ⟨hcs, his, SettingsWF_nil⟩
        | ok u2 =>
          exact ⟨hcs, his, SettingsWF_putAssoc SettingsWF_nil doc.settings⟩

theorem reach_wf (st : DBState) (h : Reach st) : DBWF st := by
  induction h with
  | init => exact DBWF_init
  | addClientStep st c hr ih => exact DBWF_addClient ih c
  | updateClientStep st c hr ih => exact DBWF_updateClient ih c
  | deleteClientStep st id hr ih => exact ⟨StoreWF_del ih.1 id, ih.2.1, ih.2.2⟩
  | addInvoiceStep st inv hr ih =>
    rw [addInvoice_eq_shape]
    exact DBWF_addShape ih _
  | updateInvoiceStep st id inv hr ih =>
    cases hget : st.invoices.get id with
    | none =>
      rw [updateInvoice_none st id inv hget]
      exact ih
    | some w =>
      rw [updateInvoice_found st id inv w hget]
      exact ⟨ih.1, StoreWF_put ih.2.1 _, ih.2.2⟩
  | deleteInvoiceStep st id hr ih => exact ⟨ih.1, StoreWF_del ih.2.1 id, ih.2.2⟩
  | updateSettingsStep st s hr ih => exact DBWF_updateSettings ih s
  | restoreStep st doc hr ih =>
    rw [restore_eq_shape]
    exact DBWF_restoreShape _ _ (StoreWF_clear _) (StoreWF_clear _) doc

/-!  Rebuilding a well-formed store by re-adding its own value list, the
heart of the backup round trip.  -/

theorem addAll_sorted_embedded {α : Type} [HasId α] (l : List (Nat × α)) :
    ∀ (acc : List (Nat × α)) (n : Nat), RecsSorted (acc ++ l) →
      IdsEmbedded l →
      ∃ n', Store.addAll ⟨acc, n⟩ (l.map (fun p => p.2)) =
        (⟨acc ++ l, n'⟩, Except.ok ()) := by
  induction l with
  | nil =>
    intro acc n _ _
    exact ⟨n, by simp [Store.addAll]⟩
  | cons q rest ih =>
    obtain ⟨k, v⟩ := q
    intro acc n hs he
    have hvk : HasId.getId v = some k := he (k, v) (List.mem_cons_self _ _)
    have hlt : ∀ p ∈ acc, p.1 < k := by
      intro p hp
      exact (List.pairwise_append.mp hs).2.2 p hp (k, v)
        (List.mem_cons_self _ _)
    have hdup : (acc.any (fun p => p.1 = k)) = false := by
      rw [List.any_eq_false]
      intro p hp
      have hpk := hlt p hp
      simp only [decide_eq_true_eq]
      omega
    have hadd : (Store.mk acc n).add v =
        (⟨insertRec k v acc, max n (k + 1)⟩, Except.ok k) := by
      simp [Store.add, hvk, hdup]
    have hs' : RecsSorted ((acc ++ [(k, v)]) ++ rest) := by
      rw [RecsSorted]
      rw [← List.append_cons]
      exact hs
    have he' : IdsEmbedded rest :=
      fun p hp => he p (List.mem_cons_of_mem _ hp)
    obtain ⟨n', hn⟩ := ih (acc ++ [(k, v)]) (max n (k + 1)) hs' he'
    refine ⟨n', ?_⟩
    show Store.addAll ⟨acc, n⟩ (v :: rest.map (fun p => p.2)) = _
    unfold Store.addAll
    rw [hadd]
    show Store.addAll ⟨insertRec k v acc, max n (k + 1)⟩
        (rest.map (fun p => p.2)) = _
    rw [insertRec_append k v acc hlt, hn]
    simp

theorem getAssoc_mem (k : String) (l : List (String × SettingsRecord))
    (s : SettingsRecord) (h : getAssoc k l = some s) : (k, s) ∈ l := by
  unfold getAssoc at h
  cases hf : l.find? (fun p => p.1 = k) with
  | none =>
    rw [hf] at h
    exact absurd h (by simp)
  | some p =>
    rw [hf] at h
    simp only [Option.map_some', Option.some.injEq] at h
    have hm := List.mem_of_find?_eq_some hf
    have hk : p.1 = k := by
      have := List.find?_some hf
      exact of_decide_eq_true this
    obtain ⟨p1, p2⟩ := p
    simp only [] at hk h
    rw [← hk, ← h]
    exact hm

/-- Restoring a document whose collections re-add cleanly yields exactly
the rebuilt stores plus the settings record under the key company. -/
theorem restoreShape_roundtrip (stc : Store Client) (sti : Store Invoice)
    (cs : Store Client) (is2 : Store Invoice) (s : SettingsRecord)
    (lc : List Client) (li : List Invoice)
    (hc : stc.addAll lc = (cs, Except.ok ()))
    (hi : sti.addAll li = (is2, Except.ok ()))
    (hsk : s.key = "company") :
    restoreShape stc sti ⟨lc, li, s⟩ =
      (⟨cs, is2, [("company", s)]⟩, Except.ok ()) := by
  simp only [restoreShape]
  rw [hc, hi, hsk]
  rfl

/-- The backup round trip on any well-formed state: when backup
succeeds, restoring its document succeeds and a second backup returns
the same document. -/
theorem restore_of_wf (st : DBState) (h : DBWF st) (doc : BackupDoc)
    (hb : backup st = Except.ok doc) :
    (restore st doc).2 = Except.ok () ∧
    backup (restore st doc).1 = Except.ok doc := by
  unfold backup at hb
  cases hset : getSettings st with
  | error e =>
    rw [hset] at hb
    exact absurd hb (by simp)
  | ok s =>
    rw [hset] at hb
    simp only [Except.ok.injEq] at hb
    subst hb
    have hsk : s.key = "company" := by
      unfold getSettings at hset
      cases hga : getAssoc "company" st.settings with
      | none =>
        rw [hga] at hset
        exact absurd hset (by simp)
      | some s' =>
        rw [hga] at hset
        simp only [Except.ok.injEq] at hset
        subst hset
        exact h.2.2 _ (getAssoc_mem "company" st.settings s' hga)
    obtain ⟨n1, hc⟩ := addAll_sorted_embedded st.clients.recs []
      st.clients.nextKey (by rw [RecsSorted, List.nil_append]; exact h.1.1)
      h.1.2
    obtain ⟨n2, hi⟩ := addAll_sorted_embedded st.invoices.recs []
      st.invoices.nextKey (by rw [RecsSorted, List.nil_append]; exact h.2.1.1)
      h.2.1.2
    rw [List.nil_append] at hc hi
    have hr := restoreShape_roundtrip st.clients.clear st.invoices.clear
      ⟨st.clients.recs, n1⟩ ⟨st.invoices.recs, n2⟩ s
      (getClients st) (getInvoices st) hc hi hsk
    rw [restore_eq_shape, hr]
    refine ⟨rfl, ?_⟩
    rfl

/-- C3: for every reachable database state, the freshly initialized one
included, whenever backup succeeds, restoring the produced document
succeeds and a second backup yields a document deep-equal to the first:
restore of a backup is idempotent. -/
theorem backup_restore_backup_eq (st : DBState) (hr : Reach st)
    (doc : BackupDoc) (hb : backup st = Except.ok doc) :
    (restore st doc).2 = Except.ok () ∧
    backup (restore st doc).1 = Except.ok doc :=
  restore_of_wf st (reach_wf st hr) doc hb

theorem backup_restore_backup_eq_witness :
    Reach initState ∧
    backup initState = Except.ok ⟨[], [], defaultSettings⟩ ∧
    (restore initState ⟨[], [], defaultSettings⟩).2 = Except.ok () ∧
    backup (restore initState ⟨[], [], defaultSettings⟩).1 =
      Except.ok ⟨[], [], defaultSettings⟩ :=
  ⟨Reach.init, rfl,
    backup_restore_backup_eq initState Reach.init ⟨[], [], defaultSettings⟩ rfl⟩

/-!  Restore inserts records verbatim: the value lists are carried over
up to reordering by key and the id injection of the missing-id case.  -/

theorem add_ok_perm {α : Type} [HasId α] (s : Store α) (v : α) (s1 : Store α)
    (k : Nat) (hkb : KeysBelow s) (hadd : s.add v = (s1, Except.ok k)) :
    KeysBelow s1 ∧ ∃ w, (w = v ∨ ∃ k', w = HasId.setId v k') ∧
      List.Perm s1.getAll (w :: s.getAll) := by
  unfold Store.add at hadd
  split at hadd
  case h_1 k0 hid =>
    split at hadd
    case isTrue hdup =>
      simp at hadd
    case isFalse hdup =>
      simp only [Prod.mk.injEq] at hadd
      obtain ⟨hs1, hk⟩ := hadd
      have hfresh : ∀ p ∈ s.recs, p.1 ≠ k0 := by
        intro p hp heq
        exact hdup (List.any_eq_true.mpr ⟨p, hp, by simp [heq]⟩)
      constructor
      · intro p hp
        rw [← hs1] at hp ⊢
        rcases mem_insertRec k0 v s.recs p hp with hh | hh
        · rw [hh]
          show k0 < max s.nextKey (k0 + 1)
          omega
        · have := hkb p hh
          show p.1 < max s.nextKey (k0 + 1)
          omega
      · refine ⟨v, Or.inl rfl, ?_⟩
        rw [← hs1]
        exact (insertRec_perm k0 v s.recs hfresh).map (fun p => p.2)
  case h_2 hid =>
    simp only [Prod.mk.injEq] at hadd
    obtain ⟨hs1, hk⟩ := hadd
    have hfresh : ∀ p ∈ s.recs, p.1 ≠ s.nextKey := by
      intro p hp heq
      have := hkb p hp
      omega
    constructor
    · intro p hp
      rw [← hs1] at hp ⊢
      rcases mem_insertRec s.nextKey (HasId.setId v s.nextKey) s.recs p hp
        with hh | hh
      · rw [hh]
        show s.nextKey < s.nextKey + 1
        omega
      · have := hkb p hh
        show p.1 < s.nextKey + 1
        omega
    · refine ⟨HasId.setId v s.nextKey, Or.inr ⟨s.nextKey, rfl⟩, ?_⟩
      rw [← hs1]
      exact (insertRec_perm s.nextKey _ s.recs hfresh).map (fun p => p.2)

theorem addAll_ok_perm {α : Type} [HasId α] (l : List α) :
    ∀ (s s' : Store α) (u : Unit), KeysBelow s →
      s.addAll l = (s', Except.ok u) →
      ∃ l', List.Forall₂ (fun v w => w = v ∨ ∃ k, w = HasId.setId v k) l l' ∧
        List.Perm s'.getAll (l' ++ s.getAll) := by
  induction l with
  | nil =>
    intro s s' u _ h
    simp only [Store.addAll, Prod.mk.injEq] at h
    refine ⟨[], List.Forall₂.nil, ?_⟩
    rw [← h.1]
    simp
  | cons v rest ih =>
    intro s s' u hkb h
    unfold Store.addAll at h
    cases hadd : s.add v with
    | mk s1 r =>
      rw [hadd] at h
      cases r with
      | error e => simp at h
      | ok k =>
        obtain ⟨hkb1, w, hw, hperm⟩ := add_ok_perm s v s1 k hkb hadd
        obtain ⟨l', hf, hp⟩ := ih s1 s' u hkb1 h
        refine ⟨w :: l', List.Forall₂.cons hw hf, ?_⟩
        refine hp.trans ?_
        refine (List.Perm.append_left l' hperm).trans ?_
        exact List.perm_middle

/-- A successful restore determines the invoices store through addAll on
the cleared store. -/
theorem restore_ok_inv (st : DBState) (doc : BackupDoc) (st' : DBState)
    (h : restore st doc = (st', Except.ok ())) :
    st.invoices.clear.addAll doc.invoices = (st'.invoices, Except.ok ()) := by
  rw [restore_eq_shape] at h
  unfold restoreShape at h
  cases hca : st.clients.clear.addAll doc.clients with
  | mk cs rc =>
    rw [hca] at h
    cases rc with
    | error e => simp at h
    | ok u =>
      cases hia : st.invoices.clear.addAll doc.invoices with
      | mk is2 ri =>
        rw [hia] at h
        cases ri with
        | error e => simp at h
        | ok u2 =>
          simp only [Prod.mk.injEq] at h
          rw [← h.1]

/-- C10: a successful restore carries the invoice records of the backup
document into the store verbatim up to key ordering and id injection:
items, subtotal, total and discount are stored exactly as found in the
document, with no recomputation; a restored database may therefore hold
invoices violating the invariants the write path enforces. -/
theorem restore_invoices_verbatim (st : DBState) (doc : BackupDoc)
    (st' : DBState) (h : restore st doc = (st', Except.ok ())) :
    ∃ l, List.Forall₂ (fun v w => w.items = v.items ∧ w.subtotal = v.subtotal ∧
        w.total = v.total ∧ w.discount = v.discount) doc.invoices l ∧
      List.Perm (getInvoices st') l := by
  have hia := restore_ok_inv st doc st' h
  have hkb : KeysBelow st.invoices.clear :=
    fun p hp => absurd hp (List.not_mem_nil p)
  obtain ⟨l', hf, hp⟩ :=
    addAll_ok_perm doc.invoices st.invoices.clear st'.invoices () hkb hia
  refine ⟨l', ?_, ?_⟩
  · refine hf.imp ?_
    intro v w hw
    rcases hw with rfl | ⟨k, rfl⟩
    · exact ⟨rfl, rfl, rfl, rfl⟩
    · exact ⟨rfl, rfl, rfl, rfl⟩
  · simpa [getInvoices, Store.getAll, Store.clear] using hp

theorem restore_invoices_verbatim_witness :
    restore initState c10Doc = (c10State, Except.ok ()) ∧
    (∃ l, List.Forall₂ (fun v w => w.items = v.items ∧ w.subtotal = v.subtotal ∧
        w.total = v.total ∧ w.discount = v.discount) c10Doc.invoices l ∧
      List.Perm (getInvoices c10State) l) ∧
    (∃ w ∈ getInvoices c10State, w.subtotal ≠ computeSubtotal w.items ∧
      w.total ≠ w.subtotal - w.discount) :=
  ⟨rfl, restore_invoices_verbatim initState c10Doc c10State rfl,
    ⟨c10Bad, by decide, by decide, by decide⟩⟩

end InvoiceApp
